import Mathlib

/-!
Verification of the `arch-voting-contract` repository: a multi-poll voting
registry (`VotingContract` in `src/contract.rs`) with poll creation,
time-boxed voting, authorized closing, and expiry processing.

Shallow embedding conventions:
* Rust `HashMap` is modelled by `AssocMap`, an association list with
  replace-or-cons insertion; only `find?`-observable behaviour matters.
* `u64`/`u32` values are modelled as `Nat` (no operation here can overflow in
  any feasible execution; the counters only ever grow by 1 per call).
* The ambient `SystemTime::now()` reads in `vote` and `process_expired_polls`
  are modelled as an explicit `current_time : Nat` parameter, as the design
  document requires for determinism.
* Fallible operations return the `Result` together with the post-state, so
  that "a failed call leaves the registry unchanged" is a provable statement.
* `Option.none` at the outer layer of `vote` and `get_detailed_results`
  models a Rust panic (`unwrap` on a missing key, or out-of-bounds `Vec`
  indexing); `some` is normal return.
-/

/-- Association-list model of Rust's `HashMap`. -/
abbrev AssocMap (α β : Type) : Type := List (α × β)

/-- Lookup: the value stored at key `a`, if any (`HashMap::get`). -/
def AssocMap.find? {α β : Type} [DecidableEq α] : AssocMap α β → α → Option β
  | [], _ => none
  | (k, v) :: rest, a => if k = a then some v else AssocMap.find? rest a

/-- Key membership (`HashMap::contains_key`). -/
def AssocMap.contains {α β : Type} [DecidableEq α] (m : AssocMap α β) (a : α) : Bool :=
  (AssocMap.find? m a).isSome

/-- Insert: replace the value at `a` if present, otherwise add a new entry
(`HashMap::insert`). -/
def AssocMap.insert {α β : Type} [DecidableEq α] : AssocMap α β → α → β → AssocMap α β
  | [], a, b => [(a, b)]
  | (k, v) :: rest, a, b =>
    if k = a then (k, b) :: rest else (k, v) :: AssocMap.insert rest a b

/-- Update the value stored at `a` in place (`HashMap::get_mut` followed by a
write through the reference); a no-op when the key is absent. -/
def AssocMap.modify {α β : Type} [DecidableEq α] : AssocMap α β → α → (β → β) → AssocMap α β
  | [], _, _ => []
  | (k, v) :: rest, a, f =>
    if k = a then (k, f v) :: rest else (k, v) :: AssocMap.modify rest a f

/-- Apply `f` to every stored value (`iter_mut` over all entries). -/
def AssocMap.mapValues {α β : Type} (f : β → β) (m : AssocMap α β) : AssocMap α β :=
  m.map (fun kv => (kv.1, f kv.2))

/-- Sum of all stored values of a `Nat`-valued map. -/
def AssocMap.sumValues {α : Type} (m : AssocMap α Nat) : Nat :=
  (m.map Prod.snd).sum

/-- The closed error taxonomy of `src/errors.rs`. -/
inductive ContractError where
  | Unauthorized
  | PollNotFound
  | PollNotActive
  | PollAlreadyEnded
  | PollNotEnded
  | InvalidOption
  | AlreadyVoted
  | InvalidTimeRange
deriving DecidableEq, Repr

/-- `Poll` from `src/models.rs`. -/
structure Poll where
  id : Nat
  title : String
  description : String
  options : List String
  creator : String
  start_time : Nat
  end_time : Nat
  active : Bool
deriving DecidableEq, Repr

/-- `VoteResults` from `src/models.rs`: per-option counts plus the running
total. -/
structure VoteResults where
  counts : AssocMap Nat Nat
  total_votes : Nat
deriving DecidableEq, Repr

/-- The loop in `VoteResults::new` inserting a zero count for every option
index `0, 1, …, option_count - 1` in order. -/
def VoteResults.initCounts : Nat → AssocMap Nat Nat
  | 0 => []
  | n + 1 => AssocMap.insert (VoteResults.initCounts n) n 0

/-- `VoteResults::new`: one zero-initialized entry per option index. -/
def VoteResults.new (option_count : Nat) : VoteResults :=
  { counts := VoteResults.initCounts option_count, total_votes := 0 }

/-- `VotingContract` from `src/contract.rs`: the registry owning all polls,
ballot maps and tallies. -/
structure VotingContract where
  polls : AssocMap Nat Poll
  votes : AssocMap Nat (AssocMap String Nat)
  results : AssocMap Nat VoteResults
  poll_counter : Nat
  owner : String
deriving DecidableEq, Repr

/-- `VotingContract::new`. -/
def VotingContract.new (owner : String) : VotingContract :=
  { polls := [], votes := [], results := [], poll_counter := 0, owner := owner }

/-- `VotingContract::create_poll`. Returns the result together with the
post-state (the pre-state on any error path). -/
def VotingContract.create_poll (c : VotingContract) (creator title description : String)
    (options : List String) (start_time end_time : Nat) :
    Except ContractError Nat × VotingContract :=
  if options.length < 2 then
    (Except.error ContractError.InvalidOption, c)
  else if start_time ≥ end_time then
    (Except.error ContractError.InvalidTimeRange, c)
  else
    let poll_id := c.poll_counter
    let poll : Poll :=
      { id := poll_id, title := title, description := description,
        options := options, creator := creator,
        start_time := start_time, end_time := end_time, active := true }
    (Except.ok poll_id,
      { c with
        polls := AssocMap.insert c.polls poll_id poll,
        votes := AssocMap.insert c.votes poll_id [],
        results := AssocMap.insert c.results poll_id (VoteResults.new options.length),
        poll_counter := c.poll_counter + 1 })

/-- `VotingContract::vote`. `current_time` is the injected clock reading.
`none` models a panic of one of the three internal `unwrap`s; `some` pairs the
`Result` with the post-state. -/
def VotingContract.vote (c : VotingContract) (poll_id : Nat) (wallet_address : String)
    (option_index : Nat) (current_time : Nat) :
    Option (Except ContractError Unit × VotingContract) :=
  match AssocMap.find? c.polls poll_id with
  | none => some (Except.error ContractError.PollNotFound, c)
  | some poll =>
    if !poll.active then some (Except.error ContractError.PollNotActive, c)
    else if current_time < poll.start_time then
      some (Except.error ContractError.PollNotActive, c)
    else if current_time > poll.end_time then
      some (Except.error ContractError.PollAlreadyEnded, c)
    else if option_index ≥ poll.options.length then
      some (Except.error ContractError.InvalidOption, c)
    else
      match AssocMap.find? c.votes poll_id with
      | none => none
      | some poll_votes =>
        if AssocMap.contains poll_votes wallet_address then
          some (Except.error ContractError.AlreadyVoted, c)
        else
          match AssocMap.find? c.results poll_id with
          | none => none
          | some results =>
            match AssocMap.find? results.counts option_index with
            | none => none
            | some _ =>
              some (Except.ok (),
                { c with
                  votes := AssocMap.modify c.votes poll_id
                    (fun pv => AssocMap.insert pv wallet_address option_index),
                  results := AssocMap.modify c.results poll_id
                    (fun r =>
                      { counts := AssocMap.modify r.counts option_index (fun n => n + 1),
                        total_votes := r.total_votes + 1 }) })

/-- `VotingContract::get_poll`. -/
def VotingContract.get_poll (c : VotingContract) (poll_id : Nat) :
    Except ContractError Poll :=
  match AssocMap.find? c.polls poll_id with
  | some poll => Except.ok poll
  | none => Except.error ContractError.PollNotFound

/-- `VotingContract::get_results`. -/
def VotingContract.get_results (c : VotingContract) (poll_id : Nat) :
    Except ContractError VoteResults :=
  match AssocMap.find? c.results poll_id with
  | some results => Except.ok results
  | none => Except.error ContractError.PollNotFound

/-- `VotingContract::close_poll`. -/
def VotingContract.close_poll (c : VotingContract) (poll_id : Nat) (caller : String) :
    Except ContractError Unit × VotingContract :=
  match AssocMap.find? c.polls poll_id with
  | none => (Except.error ContractError.PollNotFound, c)
  | some poll =>
    if poll.creator ≠ caller ∧ c.owner ≠ caller then
      (Except.error ContractError.Unauthorized, c)
    else
      (Except.ok (),
        { c with
          polls := AssocMap.modify c.polls poll_id (fun p => { p with active := false }) })

/-- The per-poll update performed by `process_expired_polls`: deactivate an
active poll whose `end_time` has passed. -/
def Poll.expire (current_time : Nat) (p : Poll) : Poll :=
  if p.active ∧ current_time > p.end_time then { p with active := false } else p

/-- `VotingContract::process_expired_polls` with injected clock reading. -/
def VotingContract.process_expired_polls (c : VotingContract) (current_time : Nat) :
    VotingContract :=
  { c with polls := AssocMap.mapValues (Poll.expire current_time) c.polls }

/-- `VotingContract::get_active_polls`. -/
def VotingContract.get_active_polls (c : VotingContract) : List Nat :=
  (c.polls.filter (fun kv => kv.2.active)).map Prod.fst

/-- The loop body of `get_detailed_results`: resolve the option label for one
`(option_idx, count)` tally entry and record `(count, percentage)` under that
label. `none` models the panic of the `poll.options[*option_idx as usize]`
indexing. -/
def detailedStep (poll : Poll) (total_votes : Nat) :
    Option (AssocMap String (Nat × Float)) → Nat × Nat →
    Option (AssocMap String (Nat × Float))
  | none, _ => none
  | some m, kv =>
    match poll.options.get? kv.1 with
    | none => none
    | some option_name =>
      let percentage : Float :=
        if total_votes > 0 then
          (Float.ofNat kv.2 / Float.ofNat total_votes) * 100.0
        else 0.0
      some (AssocMap.insert m option_name (kv.2, percentage))

/-- `VotingContract::get_detailed_results`. `none` models a panic; percentages
are computed in floating point exactly as in the source. -/
def VotingContract.get_detailed_results (c : VotingContract) (poll_id : Nat) :
    Option (Except ContractError (AssocMap String (Nat × Float))) :=
  match AssocMap.find? c.polls poll_id with
  | none => some (Except.error ContractError.PollNotFound)
  | some poll =>
    match AssocMap.find? c.results poll_id with
    | none => some (Except.error ContractError.PollNotFound)
    | some results =>
      (results.counts.foldl (detailedStep poll results.total_votes)
        (some [])).map Except.ok

/-- `VotingContract::has_voted`. -/
def VotingContract.has_voted (c : VotingContract) (poll_id : Nat) (wallet_address : String) :
    Except ContractError Bool :=
  match AssocMap.find? c.votes poll_id with
  | some poll_votes => Except.ok (AssocMap.contains poll_votes wallet_address)
  | none => Except.error ContractError.PollNotFound

/-- One invocation of a state-mutating public API operation, with its injected
clock reading where the source reads the system clock. -/
inductive Op where
  | create (creator title description : String) (options : List String)
      (start_time end_time : Nat)
  | castVote (poll_id : Nat) (wallet_address : String) (option_index current_time : Nat)
  | close (poll_id : Nat) (caller : String)
  | processExpired (current_time : Nat)
deriving DecidableEq, Repr

/-- Apply one operation; `none` when the operation panics. -/
def applyOp (c : VotingContract) : Op → Option VotingContract
  | Op.create creator title description options s e =>
    some (c.create_poll creator title description options s e).2
  | Op.castVote pid w oi t => (c.vote pid w oi t).map Prod.snd
  | Op.close pid caller => some (c.close_poll pid caller).2
  | Op.processExpired t => some (c.process_expired_polls t)

/-- Registry states reachable from a fresh registry through the public API. -/
inductive Reachable (owner : String) : VotingContract → Prop where
  | init : Reachable owner (VotingContract.new owner)
  | step : ∀ (op : Op) (c c' : VotingContract),
      Reachable owner c → applyOp c op = some c' → Reachable owner c'

/-- Zero or more public API operations leading from one state to another. -/
inductive Steps : VotingContract → VotingContract → Prop where
  | refl : ∀ c : VotingContract, Steps c c
  | tail : ∀ (op : Op) (c c' c'' : VotingContract),
      Steps c c' → applyOp c' op = some c'' → Steps c c''

deriving instance DecidableEq for Except

/-! ### Concrete demonstration states (used to exercise the theorems) -/

/-- A fresh registry owned by `"om"` after one `create_poll` by `"alice"`:
poll 0 with options `["Red", "Blue"]` and voting window `[0, 10]`. -/
def demoReg : VotingContract :=
  ((VotingContract.new "om").create_poll "alice" "Colors" "pick one"
    ["Red", "Blue"] 0 10).2

/-- The poll stored under id 0 in `demoReg`. -/
def demoRegPoll : Poll :=
  { id := 0, title := "Colors", description := "pick one",
    options := ["Red", "Blue"], creator := "alice",
    start_time := 0, end_time := 10, active := true }

/-- `demoReg` after `"bob"` votes for option 0 at time 5. -/
def demoVoted : VotingContract :=
  ((demoReg.vote 0 "bob" 0 5).getD (Except.ok (), demoReg)).2

/-- The tally of poll 0 in `demoVoted`. -/
def rDemo : VoteResults := { counts := [(0, 1), (1, 0)], total_votes := 1 }

/-- The ballot map of poll 0 in `demoVoted`. -/
def pvDemo : AssocMap String Nat := [("bob", 0)]

/-- `demoVoted` after the creator `"alice"` closes poll 0. -/
def demoClosed : VotingContract := (demoVoted.close_poll 0 "alice").2

/-- The poll stored under id 0 in `demoClosed`. -/
def demoClosedPoll : Poll := { demoRegPoll with active := false }

/-- A registry with one poll whose voting window `[10, 20]` has not started. -/
def demoPending : VotingContract :=
  ((VotingContract.new "om").create_poll "carol" "Later" "not yet"
    ["Yes", "No"] 10 20).2

/-- The poll stored under id 0 in `demoPending`. -/
def demoPendingPoll : Poll :=
  { id := 0, title := "Later", description := "not yet",
    options := ["Yes", "No"], creator := "carol",
    start_time := 10, end_time := 20, active := true }

/-! ### Lemmas about the association-list map model -/

theorem AssocMap.find?_insert_self {α β : Type} [DecidableEq α]
    (m : AssocMap α β) (a : α) (b : β) :
    AssocMap.find? (AssocMap.insert m a b) a = some b := by
  induction m with
  | nil => simp [AssocMap.insert, AssocMap.find?]
  | cons kv rest ih =>
    obtain ⟨k, v⟩ := kv
    by_cases hk : k = a
    · simp [AssocMap.insert, AssocMap.find?, hk]
    · simp [AssocMap.insert, AssocMap.find?, hk, ih]

theorem AssocMap.find?_insert_ne {α β : Type} [DecidableEq α]
    (m : AssocMap α β) (a a' : α) (b : β) (h : a' ≠ a) :
    AssocMap.find? (AssocMap.insert m a b) a' = AssocMap.find? m a' := by
  have hne : ¬ a = a' := Ne.symm h
  induction m with
  | nil => simp [AssocMap.insert, AssocMap.find?, hne]
  | cons kv rest ih =>
    obtain ⟨k, v⟩ := kv
    by_cases hk : k = a
    · subst hk
      simp [AssocMap.insert, AssocMap.find?, hne]
    · simp only [AssocMap.insert, hk, if_false, AssocMap.find?]
      by_cases hk' : k = a'
      · simp [hk']
      · simp [hk', ih]

theorem AssocMap.length_insert_of_absent {α β : Type} [DecidableEq α]
    (m : AssocMap α β) (a : α) (b : β) (h : AssocMap.find? m a = none) :
    (AssocMap.insert m a b).length = m.length + 1 := by
  induction m with
  | nil => simp [AssocMap.insert]
  | cons kv rest ih =>
    obtain ⟨k, v⟩ := kv
    by_cases hk : k = a
    · simp [AssocMap.find?, hk] at h
    · simp only [AssocMap.find?, hk, if_false] at h
      simp [AssocMap.insert, hk, ih h]

theorem AssocMap.sumValues_insert_of_absent {α : Type} [DecidableEq α]
    (m : AssocMap α Nat) (a : α) (b : Nat) (h : AssocMap.find? m a = none) :
    AssocMap.sumValues (AssocMap.insert m a b) = AssocMap.sumValues m + b := by
  induction m with
  | nil => simp [AssocMap.insert, AssocMap.sumValues]
  | cons kv rest ih =>
    obtain ⟨k, v⟩ := kv
    by_cases hk : k = a
    · simp [AssocMap.find?, hk] at h
    · simp only [AssocMap.find?, hk, if_false] at h
      have h2 := ih h
      simp only [AssocMap.insert, hk, if_false, AssocMap.sumValues,
        List.map_cons, List.sum_cons] at h2 ⊢
      omega

theorem AssocMap.find?_modify_self {α β : Type} [DecidableEq α]
    (m : AssocMap α β) (a : α) (f : β → β) :
    AssocMap.find? (AssocMap.modify m a f) a = (AssocMap.find? m a).map f := by
  induction m with
  | nil => simp [AssocMap.modify, AssocMap.find?]
  | cons kv rest ih =>
    obtain ⟨k, v⟩ := kv
    by_cases hk : k = a
    · simp [AssocMap.modify, AssocMap.find?, hk]
    · simp [AssocMap.modify, AssocMap.find?, hk, ih]

theorem AssocMap.find?_modify_ne {α β : Type} [DecidableEq α]
    (m : AssocMap α β) (a a' : α) (f : β → β) (h : a' ≠ a) :
    AssocMap.find? (AssocMap.modify m a f) a' = AssocMap.find? m a' := by
  induction m with
  | nil => simp [AssocMap.modify]
  | cons kv rest ih =>
    obtain ⟨k, v⟩ := kv
    by_cases hk : k = a
    · subst hk
      simp [AssocMap.modify, AssocMap.find?, Ne.symm h]
    · simp only [AssocMap.modify, hk, if_false, AssocMap.find?]
      by_cases hk' : k = a'
      · simp [hk']
      · simp [hk', ih]

theorem AssocMap.length_modify {α β : Type} [DecidableEq α]
    (m : AssocMap α β) (a : α) (f : β → β) :
    (AssocMap.modify m a f).length = m.length := by
  induction m with
  | nil => simp [AssocMap.modify]
  | cons kv rest ih =>
    obtain ⟨k, v⟩ := kv
    by_cases hk : k = a
    · simp [AssocMap.modify, hk]
    · simp [AssocMap.modify, hk, ih]

theorem AssocMap.sumValues_modify_succ {α : Type} [DecidableEq α]
    (m : AssocMap α Nat) (a : α) (v : Nat) (h : AssocMap.find? m a = some v) :
    AssocMap.sumValues (AssocMap.modify m a (fun n => n + 1)) =
      AssocMap.sumValues m + 1 := by
  induction m with
  | nil => simp [AssocMap.find?] at h
  | cons kv rest ih =>
    obtain ⟨k, w⟩ := kv
    by_cases hk : k = a
    · simp only [AssocMap.modify, hk, if_true, AssocMap.sumValues,
        List.map_cons, List.sum_cons]
      omega
    · simp only [AssocMap.find?, hk, if_false] at h
      have h2 := ih h
      simp only [AssocMap.modify, hk, if_false, AssocMap.sumValues,
        List.map_cons, List.sum_cons] at h2 ⊢
      omega

theorem AssocMap.find?_mapValues {α β : Type} [DecidableEq α]
    (f : β → β) (m : AssocMap α β) (a : α) :
    AssocMap.find? (AssocMap.mapValues f m) a = (AssocMap.find? m a).map f := by
  induction m with
  | nil => simp [AssocMap.mapValues, AssocMap.find?]
  | cons kv rest ih =>
    obtain ⟨k, v⟩ := kv
    by_cases hk : k = a
    · simp [AssocMap.mapValues, AssocMap.find?, hk]
    · simpa [AssocMap.mapValues, AssocMap.find?, hk] using ih

theorem VoteResults.find?_initCounts (n i : Nat) :
    AssocMap.find? (VoteResults.initCounts n) i =
      if i < n then some 0 else none := by
  induction n with
  | zero => simp [VoteResults.initCounts, AssocMap.find?]
  | succ n ih =>
    by_cases h : i = n
    · subst h
      simp [VoteResults.initCounts, AssocMap.find?_insert_self]
    · rw [VoteResults.initCounts, AssocMap.find?_insert_ne _ _ _ _ h, ih]
      by_cases hlt : i < n
      · simp [hlt, Nat.lt_succ_of_lt hlt]
      · have hlt' : ¬ i < n + 1 := by omega
        simp [hlt, hlt']

theorem VoteResults.sumValues_initCounts (n : Nat) :
    AssocMap.sumValues (VoteResults.initCounts n) = 0 := by
  induction n with
  | zero => simp [VoteResults.initCounts, AssocMap.sumValues]
  | succ n ih =>
    have habs : AssocMap.find? (VoteResults.initCounts n) n = none := by
      simp [VoteResults.find?_initCounts]
    rw [VoteResults.initCounts, AssocMap.sumValues_insert_of_absent _ _ _ habs, ih]

/-! ### Inversion lemmas for the contract operations -/

/-- Inversion for `vote`: a non-panicking call either fails leaving the state
untouched, or passes all five checks and performs exactly the ballot insert
and the tally update. -/
theorem VotingContract.vote_spec (c : VotingContract) (pid : Nat) (w : String)
    (oi t : Nat) (res : Except ContractError Unit) (c' : VotingContract)
    (h : c.vote pid w oi t = some (res, c')) :
    (c' = c ∧ ∃ e, res = Except.error e) ∨
    (res = Except.ok () ∧ ∃ poll pv r cnt,
      AssocMap.find? c.polls pid = some poll ∧ poll.active = true ∧
      poll.start_time ≤ t ∧ t ≤ poll.end_time ∧ oi < poll.options.length ∧
      AssocMap.find? c.votes pid = some pv ∧ AssocMap.find? pv w = none ∧
      AssocMap.find? c.results pid = some r ∧ AssocMap.find? r.counts oi = some cnt ∧
      c' = { c with
        votes := AssocMap.modify c.votes pid (fun m => AssocMap.insert m w oi),
        results := AssocMap.modify c.results pid (fun r =>
          { counts := AssocMap.modify r.counts oi (fun n => n + 1),
            total_votes := r.total_votes + 1 }) }) := by
  unfold VotingContract.vote at h
  split at h
  · simp only [Option.some.injEq, Prod.mk.injEq] at h
    exact Or.inl ⟨h.2.symm, _, h.1.symm⟩
  · rename_i poll hp
    split at h
    · simp only [Option.some.injEq, Prod.mk.injEq] at h
      exact Or.inl ⟨h.2.symm, _, h.1.symm⟩
    · rename_i hact
      split at h
      · simp only [Option.some.injEq, Prod.mk.injEq] at h
        exact Or.inl ⟨h.2.symm, _, h.1.symm⟩
      · rename_i hstart
        split at h
        · simp only [Option.some.injEq, Prod.mk.injEq] at h
          exact Or.inl ⟨h.2.symm, _, h.1.symm⟩
        · rename_i hend
          split at h
          · simp only [Option.some.injEq, Prod.mk.injEq] at h
            exact Or.inl ⟨h.2.symm, _, h.1.symm⟩
          · rename_i hoi
            split at h
            · exact absurd h (by simp)
            · rename_i pv hpv
              split at h
              · simp only [Option.some.injEq, Prod.mk.injEq] at h
                exact Or.inl ⟨h.2.symm, _, h.1.symm⟩
              · rename_i hvoted
                split at h
                · exact absurd h (by simp)
                · rename_i r hr
                  split at h
                  · exact absurd h (by simp)
                  · rename_i cnt hcnt
                    simp only [Option.some.injEq, Prod.mk.injEq] at h
                    refine Or.inr ⟨h.1.symm, poll, pv, r, cnt, hp, ?_, by omega, by omega,
                      by omega, hpv, ?_, hr, hcnt, h.2.symm⟩
                    · revert hact
                      cases poll.active <;> simp
                    · cases hfw : AssocMap.find? pv w with
                      | none => rfl
                      | some x => exact absurd (by simp [AssocMap.contains, hfw]) hvoted

/-- Successful `create_poll`: with at least two options and a valid time
range, the next counter value is returned and all three maps gain an entry. -/
theorem VotingContract.create_poll_ok (c : VotingContract)
    (creator title description : String) (options : List String) (s e : Nat)
    (h2 : 2 ≤ options.length) (hlt : s < e) :
    c.create_poll creator title description options s e =
      (Except.ok c.poll_counter,
        { c with
          polls := AssocMap.insert c.polls c.poll_counter
            { id := c.poll_counter, title := title, description := description,
              options := options, creator := creator,
              start_time := s, end_time := e, active := true },
          votes := AssocMap.insert c.votes c.poll_counter [],
          results := AssocMap.insert c.results c.poll_counter
            (VoteResults.new options.length),
          poll_counter := c.poll_counter + 1 }) := by
  have h1 : ¬ options.length < 2 := by omega
  have h3 : ¬ s ≥ e := by omega
  simp [VotingContract.create_poll, h1, h3]

/-- The post-state of `create_poll` is either the unchanged pre-state (an
error was returned before any mutation) or the three-way insertion. -/
theorem VotingContract.create_poll_snd (c : VotingContract)
    (creator title description : String) (options : List String) (s e : Nat) :
    ((c.create_poll creator title description options s e).2 = c ∧
      ∃ err, (c.create_poll creator title description options s e).1 =
        Except.error err) ∨
    (2 ≤ options.length ∧ s < e ∧
      c.create_poll creator title description options s e =
        (Except.ok c.poll_counter,
          { c with
            polls := AssocMap.insert c.polls c.poll_counter
              { id := c.poll_counter, title := title, description := description,
                options := options, creator := creator,
                start_time := s, end_time := e, active := true },
            votes := AssocMap.insert c.votes c.poll_counter [],
            results := AssocMap.insert c.results c.poll_counter
              (VoteResults.new options.length),
            poll_counter := c.poll_counter + 1 })) := by
  by_cases h1 : options.length < 2
  · exact Or.inl (by simp [VotingContract.create_poll, h1])
  · by_cases h3 : s ≥ e
    · exact Or.inl (by simp [VotingContract.create_poll, h1, h3])
    · exact Or.inr ⟨by omega, by omega,
        VotingContract.create_poll_ok c creator title description options s e
          (by omega) (by omega)⟩

/-- Inversion for `close_poll`: either an error with the state untouched, or
the caller is authorized and exactly the `active` flag of that poll is
cleared. -/
theorem VotingContract.close_poll_spec (c : VotingContract) (pid : Nat)
    (caller : String) (res : Except ContractError Unit) (c' : VotingContract)
    (h : c.close_poll pid caller = (res, c')) :
    (c' = c ∧ ∃ e, res = Except.error e) ∨
    (res = Except.ok () ∧ ∃ poll,
      AssocMap.find? c.polls pid = some poll ∧
      (poll.creator = caller ∨ c.owner = caller) ∧
      c' = { c with
        polls := AssocMap.modify c.polls pid (fun p => { p with active := false }) }) := by
  unfold VotingContract.close_poll at h
  split at h
  · simp only [Prod.mk.injEq] at h
    exact Or.inl ⟨h.2.symm, _, h.1.symm⟩
  · rename_i poll hp
    split at h
    · simp only [Prod.mk.injEq] at h
      exact Or.inl ⟨h.2.symm, _, h.1.symm⟩
    · rename_i hauth
      simp only [Prod.mk.injEq] at h
      refine Or.inr ⟨h.1.symm, poll, hp, ?_, h.2.symm⟩
      by_cases hc : poll.creator = caller
      · exact Or.inl hc
      · by_cases ho : c.owner = caller
        · exact Or.inr ho
        · exact absurd ⟨hc, ho⟩ hauth

/-- `process_expired_polls` observed through `find?`: every poll is mapped
through `Poll.expire`. -/
theorem VotingContract.process_expired_find? (c : VotingContract) (t pid : Nat) :
    AssocMap.find? (c.process_expired_polls t).polls pid =
      (AssocMap.find? c.polls pid).map (Poll.expire t) := by
  simp [VotingContract.process_expired_polls, AssocMap.find?_mapValues]

/-! ### The reachable-state invariant -/

theorem AssocMap.isSome_find?_modify {α β : Type} [DecidableEq α]
    (m : AssocMap α β) (a a' : α) (f : β → β) :
    (AssocMap.find? (AssocMap.modify m a f) a').isSome =
      (AssocMap.find? m a').isSome := by
  by_cases h : a' = a
  · subst h
    rw [AssocMap.find?_modify_self]
    cases AssocMap.find? m a' <;> rfl
  · rw [AssocMap.find?_modify_ne _ _ _ _ h]

theorem Poll.expire_options (t : Nat) (p : Poll) :
    (Poll.expire t p).options = p.options := by
  unfold Poll.expire
  split <;> rfl

theorem Poll.expire_creator (t : Nat) (p : Poll) :
    (Poll.expire t p).creator = p.creator := by
  unfold Poll.expire
  split <;> rfl

theorem Poll.expire_inactive (t : Nat) (p : Poll) (h : p.active = false) :
    (Poll.expire t p).active = false := by
  unfold Poll.expire
  split
  · rfl
  · exact h

/-- Invariant maintained by every public API operation: the three maps share
one key set, every poll id is below the counter, every tally has exactly the
keys `0 .. options.length - 1`, and `total_votes` equals both the sum of the
tally counts and the number of recorded ballots. -/
def RegistryInv (c : VotingContract) : Prop :=
  (∀ pid, (AssocMap.find? c.votes pid).isSome = (AssocMap.find? c.polls pid).isSome) ∧
  (∀ pid, (AssocMap.find? c.results pid).isSome = (AssocMap.find? c.polls pid).isSome) ∧
  (∀ pid poll, AssocMap.find? c.polls pid = some poll → pid < c.poll_counter) ∧
  (∀ pid poll r, AssocMap.find? c.polls pid = some poll →
    AssocMap.find? c.results pid = some r →
    ∀ i, (AssocMap.find? r.counts i).isSome ↔ i < poll.options.length) ∧
  (∀ pid r pv, AssocMap.find? c.results pid = some r →
    AssocMap.find? c.votes pid = some pv →
    r.total_votes = AssocMap.sumValues r.counts ∧ r.total_votes = pv.length)

theorem RegistryInv_new (owner : String) : RegistryInv (VotingContract.new owner) := by
  refine ⟨fun pid => rfl, fun pid => rfl, ?_, ?_, ?_⟩
  · intro pid poll h
    simp [VotingContract.new, AssocMap.find?] at h
  · intro pid poll r h _
    simp [VotingContract.new, AssocMap.find?] at h
  · intro pid r pv h _
    simp [VotingContract.new, AssocMap.find?] at h

theorem RegistryInv_create (c : VotingContract) (creator title description : String)
    (options : List String) (s e : Nat) (hInv : RegistryInv c) :
    RegistryInv (c.create_poll creator title description options s e).2 := by
  obtain ⟨hkv, hkr, hlt, hck, htl⟩ := hInv
  rcases VotingContract.create_poll_snd c creator title description options s e with
    ⟨heq, -⟩ | ⟨h2, hse, heq⟩
  · rw [heq]
    exact ⟨hkv, hkr, hlt, hck, htl⟩
  · rw [heq]
    dsimp only
    set n := c.poll_counter with hn
    refine ⟨?_, ?_, ?_, ?_, ?_⟩
    · intro pid
      by_cases hp : pid = n
      · subst hp
        rw [AssocMap.find?_insert_self, AssocMap.find?_insert_self]
        rfl
      · rw [AssocMap.find?_insert_ne _ _ _ _ hp, AssocMap.find?_insert_ne _ _ _ _ hp]
        exact hkv pid
    · intro pid
      by_cases hp : pid = n
      · subst hp
        rw [AssocMap.find?_insert_self, AssocMap.find?_insert_self]
        rfl
      · rw [AssocMap.find?_insert_ne _ _ _ _ hp, AssocMap.find?_insert_ne _ _ _ _ hp]
        exact hkr pid
    · intro pid poll hfind
      show pid < n + 1
      by_cases hp : pid = n
      · subst hp
        omega
      · rw [AssocMap.find?_insert_ne _ _ _ _ hp] at hfind
        have := hlt pid poll hfind
        omega
    · intro pid poll r hfp hfr
      by_cases hp : pid = n
      · subst hp
        rw [AssocMap.find?_insert_self] at hfp hfr
        cases hfp
        cases hfr
        intro i
        simp [VoteResults.new, VoteResults.find?_initCounts]
      · rw [AssocMap.find?_insert_ne _ _ _ _ hp] at hfp hfr
        exact hck pid poll r hfp hfr
    · intro pid r pv hfr hfv
      by_cases hp : pid = n
      · subst hp
        rw [AssocMap.find?_insert_self] at hfr hfv
        cases hfr
        cases hfv
        simp [VoteResults.new, VoteResults.sumValues_initCounts]
      · rw [AssocMap.find?_insert_ne _ _ _ _ hp] at hfr hfv
        exact htl pid r pv hfr hfv

theorem RegistryInv_vote (c c' : VotingContract) (pid : Nat) (w : String) (oi t : Nat)
    (res : Except ContractError Unit) (hInv : RegistryInv c)
    (h : c.vote pid w oi t = some (res, c')) : RegistryInv c' := by
  obtain ⟨hkv, hkr, hlt, hck, htl⟩ := hInv
  rcases VotingContract.vote_spec c pid w oi t res c' h with
    ⟨heq, -⟩ | ⟨-, poll, pv, r, cnt, hp, hact, hs, he, hoi, hpv, hpvw, hr, hcnt, heq⟩
  · rw [heq]
    exact ⟨hkv, hkr, hlt, hck, htl⟩
  · subst heq
    refine ⟨?_, ?_, ?_, ?_, ?_⟩
    · intro pid'
      show (AssocMap.find? (AssocMap.modify c.votes pid _) pid').isSome = _
      rw [AssocMap.isSome_find?_modify]
      exact hkv pid'
    · intro pid'
      show (AssocMap.find? (AssocMap.modify c.results pid _) pid').isSome = _
      rw [AssocMap.isSome_find?_modify]
      exact hkr pid'
    · intro pid' poll' hfind
      exact hlt pid' poll' hfind
    · intro pid' poll' r' hfp hfr
      by_cases hpi : pid' = pid
      · subst hpi
        rw [show (AssocMap.find? (AssocMap.modify c.results pid' _) pid') = _ from
          AssocMap.find?_modify_self c.results pid' _, hr] at hfr
        cases hfr
        intro i
        show (AssocMap.find? (AssocMap.modify r.counts oi _) i).isSome = true ↔ _
        rw [AssocMap.isSome_find?_modify]
        exact hck pid' poll' r hfp hr i
      · rw [show (AssocMap.find? (AssocMap.modify c.results pid _) pid') = _ from
          AssocMap.find?_modify_ne c.results pid pid' _ hpi] at hfr
        exact hck pid' poll' r' hfp hfr
    · intro pid' r' pv' hfr hfv
      by_cases hpi : pid' = pid
      · subst hpi
        rw [show (AssocMap.find? (AssocMap.modify c.results pid' _) pid') = _ from
          AssocMap.find?_modify_self c.results pid' _, hr] at hfr
        rw [show (AssocMap.find? (AssocMap.modify c.votes pid' _) pid') = _ from
          AssocMap.find?_modify_self c.votes pid' _, hpv] at hfv
        cases hfr
        cases hfv
        obtain ⟨hsum, hlen⟩ := htl pid' r pv hr hpv
        constructor
        · show r.total_votes + 1 = AssocMap.sumValues (AssocMap.modify r.counts oi _)
          rw [AssocMap.sumValues_modify_succ r.counts oi cnt hcnt]
          omega
        · show r.total_votes + 1 = (AssocMap.insert pv w oi).length
          rw [AssocMap.length_insert_of_absent pv w oi hpvw]
          omega
      · rw [show (AssocMap.find? (AssocMap.modify c.results pid _) pid') = _ from
          AssocMap.find?_modify_ne c.results pid pid' _ hpi] at hfr
        rw [show (AssocMap.find? (AssocMap.modify c.votes pid _) pid') = _ from
          AssocMap.find?_modify_ne c.votes pid pid' _ hpi] at hfv
        exact htl pid' r' pv' hfr hfv

theorem RegistryInv_close (c c' : VotingContract) (pid : Nat) (caller : String)
    (res : Except ContractError Unit) (hInv : RegistryInv c)
    (h : c.close_poll pid caller = (res, c')) : RegistryInv c' := by
  obtain ⟨hkv, hkr, hlt, hck, htl⟩ := hInv
  rcases VotingContract.close_poll_spec c pid caller res c' h with
    ⟨heq, -⟩ | ⟨-, poll, hp, -, heq⟩
  · rw [heq]
    exact ⟨hkv, hkr, hlt, hck, htl⟩
  · subst heq
    refine ⟨?_, ?_, ?_, ?_, ?_⟩
    · intro pid'
      show _ = (AssocMap.find? (AssocMap.modify c.polls pid _) pid').isSome
      rw [AssocMap.isSome_find?_modify]
      exact hkv pid'
    · intro pid'
      show _ = (AssocMap.find? (AssocMap.modify c.polls pid _) pid').isSome
      rw [AssocMap.isSome_find?_modify]
      exact hkr pid'
    · intro pid' poll' hfind
      by_cases hpi : pid' = pid
      · subst hpi
        exact hlt pid' poll hp
      · rw [show (AssocMap.find? (AssocMap.modify c.polls pid _) pid') = _ from
          AssocMap.find?_modify_ne c.polls pid pid' _ hpi] at hfind
        exact hlt pid' poll' hfind
    · intro pid' poll' r' hfp hfr
      by_cases hpi : pid' = pid
      · subst hpi
        rw [show (AssocMap.find? (AssocMap.modify c.polls pid' _) pid') = _ from
          AssocMap.find?_modify_self c.polls pid' _, hp] at hfp
        cases hfp
        intro i
        exact hck pid' poll r' hp hfr i
      · rw [show (AssocMap.find? (AssocMap.modify c.polls pid _) pid') = _ from
          AssocMap.find?_modify_ne c.polls pid pid' _ hpi] at hfp
        exact hck pid' poll' r' hfp hfr
    · intro pid' r' pv' hfr hfv
      exact htl pid' r' pv' hfr hfv

theorem option_map_some_inv {α β : Type} (f : α → β) (x : Option α) (y : β)
    (h : x.map f = some y) : ∃ a, x = some a ∧ f a = y := by
  cases x with
  | none => cases h
  | some a =>
    refine ⟨a, rfl, ?_⟩
    injection h

theorem RegistryInv_process (c : VotingContract) (t : Nat) (hInv : RegistryInv c) :
    RegistryInv (c.process_expired_polls t) := by
  obtain ⟨hkv, hkr, hlt, hck, htl⟩ := hInv
  refine ⟨?_, ?_, ?_, ?_, ?_⟩
  · intro pid
    rw [show (AssocMap.find? (c.process_expired_polls t).polls pid) = _ from
      VotingContract.process_expired_find? c t pid]
    show (AssocMap.find? c.votes pid).isSome = _
    rw [hkv pid]
    cases AssocMap.find? c.polls pid <;> rfl
  · intro pid
    rw [show (AssocMap.find? (c.process_expired_polls t).polls pid) = _ from
      VotingContract.process_expired_find? c t pid]
    show (AssocMap.find? c.results pid).isSome = _
    rw [hkr pid]
    cases AssocMap.find? c.polls pid <;> rfl
  · intro pid poll' hfind
    rw [VotingContract.process_expired_find? c t pid] at hfind
    rcases option_map_some_inv _ _ _ hfind with ⟨poll, hp, -⟩
    exact hlt pid poll hp
  · intro pid poll' r' hfp hfr
    rw [VotingContract.process_expired_find? c t pid] at hfp
    rcases option_map_some_inv _ _ _ hfp with ⟨poll, hp, hex⟩
    intro i
    rw [show poll'.options = poll.options from hex ▸ Poll.expire_options t poll]
    exact hck pid poll r' hp hfr i
  · intro pid r' pv' hfr hfv
    exact htl pid r' pv' hfr hfv

/-- Every state reachable through the public API satisfies the registry
invariant. -/
theorem Reachable.registryInv {owner : String} {c : VotingContract}
    (h : Reachable owner c) : RegistryInv c := by
  induction h with
  | init => exact RegistryInv_new owner
  | step op c₀ c₁ hreach happ ih =>
    cases op with
    | create creator title description options s e =>
      cases happ
      exact RegistryInv_create c₀ creator title description options s e ih
    | castVote pid w oi t =>
      simp only [applyOp] at happ
      obtain ⟨⟨res, c₂⟩, hv, hsnd⟩ := option_map_some_inv _ _ _ happ
      cases hsnd
      exact RegistryInv_vote c₀ c₂ pid w oi t res ih hv
    | close pid caller =>
      cases happ
      exact RegistryInv_close c₀ _ pid caller (c₀.close_poll pid caller).1 ih
        (by rfl)
    | processExpired t =>
      cases happ
      exact RegistryInv_process c₀ t ih

/-! ### Step preservation: persistence of polls, ballots and the counter -/

theorem step_preserves (c c' : VotingContract) (op : Op)
    (hInv : RegistryInv c) (h : applyOp c op = some c') :
    (∀ pid poll, AssocMap.find? c.polls pid = some poll →
      ∃ poll', AssocMap.find? c'.polls pid = some poll' ∧
        (poll.active = false → poll'.active = false)) ∧
    c.poll_counter ≤ c'.poll_counter ∧
    (∀ pid pv w oi, AssocMap.find? c.votes pid = some pv →
      AssocMap.find? pv w = some oi →
      ∃ pv', AssocMap.find? c'.votes pid = some pv' ∧
        AssocMap.find? pv' w = some oi) := by
  obtain ⟨hkv, hkr, hlt, hck, htl⟩ := hInv
  cases op with
  | create creator title description options s e =>
    cases h
    rcases VotingContract.create_poll_snd c creator title description options s e with
      ⟨heq, -⟩ | ⟨h2, hse, heq⟩
    · rw [heq]
      exact ⟨fun pid poll hp => ⟨poll, hp, fun ha => ha⟩, le_refl _,
        fun pid pv w oi hv hw => ⟨pv, hv, hw⟩⟩
    · rw [heq]
      dsimp only
      refine ⟨?_, by omega, ?_⟩
      · intro pid poll hp
        have hne : pid ≠ c.poll_counter := by
          have := hlt pid poll hp
          omega
        exact ⟨poll, by rw [AssocMap.find?_insert_ne _ _ _ _ hne]; exact hp,
          fun ha => ha⟩
      · intro pid pv w oi hv hw
        have hps : (AssocMap.find? c.polls pid).isSome = true := by
          rw [← hkv pid, hv]
          rfl
        rcases Option.isSome_iff_exists.mp hps with ⟨poll, hp⟩
        have hne : pid ≠ c.poll_counter := by
          have := hlt pid poll hp
          omega
        exact ⟨pv, by rw [AssocMap.find?_insert_ne _ _ _ _ hne]; exact hv, hw⟩
  | castVote pid0 w0 oi0 t0 =>
    simp only [applyOp] at h
    obtain ⟨⟨res, c₂⟩, hv, hsnd⟩ := option_map_some_inv _ _ _ h
    cases hsnd
    rcases VotingContract.vote_spec c pid0 w0 oi0 t0 res c₂ hv with
      ⟨heq, -⟩ | ⟨-, poll0, pv0, r0, cnt0, hp0, -, -, -, -, hpv0, hpvw0, -, -, heq⟩
    · rw [heq]
      exact ⟨fun pid poll hp => ⟨poll, hp, fun ha => ha⟩, le_refl _,
        fun pid pv w oi hv' hw => ⟨pv, hv', hw⟩⟩
    · subst heq
      refine ⟨fun pid poll hp => ⟨poll, hp, fun ha => ha⟩, le_refl _, ?_⟩
      intro pid pv w oi hv' hw
      by_cases hpi : pid = pid0
      · subst hpi
        rw [hpv0] at hv'
        injection hv' with hpveq
        subst hpveq
        have hwne : w ≠ w0 := by
          intro hww
          rw [hww, hpvw0] at hw
          cases hw
        refine ⟨AssocMap.insert pv0 w0 oi0, ?_, ?_⟩
        · show AssocMap.find? (AssocMap.modify c.votes pid _) pid = _
          rw [AssocMap.find?_modify_self, hpv0]
          rfl
        · rw [AssocMap.find?_insert_ne _ _ _ _ hwne]
          exact hw
      · refine ⟨pv, ?_, hw⟩
        show AssocMap.find? (AssocMap.modify c.votes pid0 _) pid = _
        rw [AssocMap.find?_modify_ne _ _ _ _ hpi]
        exact hv'
  | close pid0 caller =>
    cases h
    rcases VotingContract.close_poll_spec c pid0 caller
      (c.close_poll pid0 caller).1 (c.close_poll pid0 caller).2 (by rfl) with
      ⟨heq, -⟩ | ⟨-, poll0, hp0, -, heq⟩
    · rw [heq]
      exact ⟨fun pid poll hp => ⟨poll, hp, fun ha => ha⟩, le_refl _,
        fun pid pv w oi hv' hw => ⟨pv, hv', hw⟩⟩
    · rw [heq]
      dsimp only
      refine ⟨?_, le_refl _, fun pid pv w oi hv' hw => ⟨pv, hv', hw⟩⟩
      intro pid poll hp
      by_cases hpi : pid = pid0
      · subst hpi
        refine ⟨{ poll with active := false }, ?_, fun _ => rfl⟩
        rw [AssocMap.find?_modify_self, hp]
        rfl
      · exact ⟨poll, by rw [AssocMap.find?_modify_ne _ _ _ _ hpi]; exact hp,
          fun ha => ha⟩
  | processExpired t0 =>
    cases h
    refine ⟨?_, le_refl _, fun pid pv w oi hv' hw => ⟨pv, hv', hw⟩⟩
    intro pid poll hp
    refine ⟨Poll.expire t0 poll, ?_, Poll.expire_inactive t0 poll⟩
    rw [VotingContract.process_expired_find? c t0 pid, hp]
    rfl

/-- `Steps` preserves reachability. -/
theorem Steps.reachable {owner : String} {c c' : VotingContract}
    (hr : Reachable owner c) (hs : Steps c c') : Reachable owner c' := by
  induction hs with
  | refl _ => exact hr
  | tail op c₀ c₁ c₂ hsteps happ ih => exact Reachable.step op c₁ c₂ (ih hr) happ

/-- Multi-step persistence: polls are never deleted, an inactive poll stays
inactive, the counter never decreases, and recorded ballots are never removed
or overwritten. -/
theorem steps_preserves {owner : String} (c c' : VotingContract)
    (hr : Reachable owner c) (hs : Steps c c') :
    (∀ pid poll, AssocMap.find? c.polls pid = some poll →
      ∃ poll', AssocMap.find? c'.polls pid = some poll' ∧
        (poll.active = false → poll'.active = false)) ∧
    c.poll_counter ≤ c'.poll_counter ∧
    (∀ pid pv w oi, AssocMap.find? c.votes pid = some pv →
      AssocMap.find? pv w = some oi →
      ∃ pv', AssocMap.find? c'.votes pid = some pv' ∧
        AssocMap.find? pv' w = some oi) := by
  induction hs with
  | refl _ =>
    exact ⟨fun pid poll hp => ⟨poll, hp, fun ha => ha⟩, le_refl _,
      fun pid pv w oi hv' hw => ⟨pv, hv', hw⟩⟩
  | tail op c₀ c₁ c₂ hsteps happ ih =>
    obtain ⟨ihP, ihC, ihB⟩ := ih hr
    have hr₁ : Reachable owner c₁ := Steps.reachable hr hsteps
    obtain ⟨sP, sC, sB⟩ := step_preserves c₁ c₂ op hr₁.registryInv happ
    refine ⟨?_, le_trans ihC sC, ?_⟩
    · intro pid poll hp
      obtain ⟨poll₁, hp₁, hact₁⟩ := ihP pid poll hp
      obtain ⟨poll₂, hp₂, hact₂⟩ := sP pid poll₁ hp₁
      exact ⟨poll₂, hp₂, fun ha => hact₂ (hact₁ ha)⟩
    · intro pid pv w oi hv' hw
      obtain ⟨pv₁, hv₁, hw₁⟩ := ihB pid pv w oi hv' hw
      exact sB pid pv₁ w oi hv₁ hw₁

/-! ### Panic freedom -/

theorem AssocMap.find?_isSome_of_mem {α β : Type} [DecidableEq α]
    (m : AssocMap α β) (kv : α × β) (h : kv ∈ m) :
    (AssocMap.find? m kv.1).isSome = true := by
  induction m with
  | nil => cases h
  | cons hd rest ih =>
    by_cases hk : hd.1 = kv.1
    · obtain ⟨k, v⟩ := hd
      have hk' : k = kv.1 := hk
      simp [AssocMap.find?, hk']
    · rcases List.mem_cons.mp h with heq | hmem
      · rw [heq] at hk
        exact absurd rfl hk
      · obtain ⟨k, v⟩ := hd
        simp only [AssocMap.find?, hk, if_false]
        exact ih hmem

theorem get?_isSome_of_lt {α : Type} (l : List α) (n : Nat) (h : n < l.length) :
    (l.get? n).isSome = true := by
  induction l generalizing n with
  | nil => simp at h
  | cons x xs ih =>
    cases n with
    | zero => rfl
    | succ m => exact ih m (by simpa using h)

theorem foldl_detailedStep_isSome (poll : Poll) (total : Nat)
    (l : List (Nat × Nat)) (hl : ∀ kv ∈ l, kv.1 < poll.options.length)
    (init : AssocMap String (Nat × Float)) :
    (l.foldl (detailedStep poll total) (some init)).isSome = true := by
  revert hl
  induction l generalizing init with
  | nil => intro _; rfl
  | cons kv rest ih =>
    intro hl
    have hlt := hl kv (List.mem_cons_self _ _)
    rw [List.foldl_cons]
    cases hname : poll.options.get? kv.1 with
    | none =>
      have hsome := get?_isSome_of_lt poll.options kv.1 hlt
      rw [hname] at hsome
      simp at hsome
    | some name =>
      have hred : detailedStep poll total (some init) kv =
          some (AssocMap.insert init name (kv.2,
            if total > 0 then (Float.ofNat kv.2 / Float.ofNat total) * 100.0
            else 0.0)) := by
        unfold detailedStep
        dsimp only
        rw [hname]
      rw [hred]
      exact ih _ (fun kv' h' => hl kv' (List.mem_cons_of_mem _ h'))

/-- Under the registry invariant, `vote` never panics: all three internal
`unwrap`s succeed. -/
theorem VotingContract.vote_isSome (c : VotingContract) (hInv : RegistryInv c)
    (pid : Nat) (w : String) (oi t : Nat) :
    (c.vote pid w oi t).isSome = true := by
  obtain ⟨hkv, hkr, hlt, hck, htl⟩ := hInv
  unfold VotingContract.vote
  cases hp : AssocMap.find? c.polls pid with
  | none => rfl
  | some poll =>
    dsimp only
    split
    · rfl
    · split
      · rfl
      · split
        · rfl
        · split
          · rfl
          · rename_i hoi
            cases hv : AssocMap.find? c.votes pid with
            | none =>
              have h1 := hkv pid
              rw [hp, hv] at h1
              simp at h1
            | some pv =>
              dsimp only
              split
              · rfl
              · cases hr : AssocMap.find? c.results pid with
                | none =>
                  have h1 := hkr pid
                  rw [hp, hr] at h1
                  simp at h1
                | some r =>
                  dsimp only
                  cases hcnt : AssocMap.find? r.counts oi with
                  | none =>
                    have h1 := (hck pid poll r hp hr oi).mpr (by omega)
                    rw [hcnt] at h1
                    simp at h1
                  | some cnt => rfl

/-- Under the registry invariant, `get_detailed_results` never panics: every
tally key is a valid index into the options vector. -/
theorem VotingContract.get_detailed_results_isSome (c : VotingContract)
    (hInv : RegistryInv c) (pid : Nat) :
    (c.get_detailed_results pid).isSome = true := by
  obtain ⟨hkv, hkr, hlt, hck, htl⟩ := hInv
  unfold VotingContract.get_detailed_results
  cases hp : AssocMap.find? c.polls pid with
  | none => rfl
  | some poll =>
    dsimp only
    cases hr : AssocMap.find? c.results pid with
    | none => rfl
    | some r =>
      dsimp only
      have hkeys : ∀ kv ∈ r.counts, kv.1 < poll.options.length := by
        intro kv hmem
        exact (hck pid poll r hp hr kv.1).mp
          (AssocMap.find?_isSome_of_mem r.counts kv hmem)
      have hfold := foldl_detailedStep_isSome poll r.total_votes r.counts hkeys []
      cases hres : r.counts.foldl (detailedStep poll r.total_votes) (some []) with
      | none =>
        rw [hres] at hfold
        simp at hfold
      | some x => rfl

/-! ### Reachability of the demonstration states -/

theorem demoReg_reachable : Reachable "om" demoReg :=
  Reachable.step (Op.create "alice" "Colors" "pick one" ["Red", "Blue"] 0 10)
    (VotingContract.new "om") demoReg Reachable.init (by decide)

theorem demoVoted_reachable : Reachable "om" demoVoted :=
  Reachable.step (Op.castVote 0 "bob" 0 5) demoReg demoVoted
    demoReg_reachable (by decide)

theorem demoClosed_reachable : Reachable "om" demoClosed :=
  Reachable.step (Op.close 0 "alice") demoVoted demoClosed
    demoVoted_reachable (by decide)

theorem demoVoted_steps_demoClosed : Steps demoVoted demoClosed :=
  Steps.tail (Op.close 0 "alice") demoVoted demoVoted demoClosed
    (Steps.refl demoVoted) (by decide)

/-! ### Claim theorems -/

/-- C1: in every registry state reachable from a fresh registry through the
public API, every poll's `total_votes` equals the sum of the per-option
counts in its tally map and also equals the number of entries in its ballot
map. -/
theorem C1_total_votes_invariant {owner : String} {c : VotingContract}
    (hr : Reachable owner c) (pid : Nat) (r : VoteResults)
    (pv : AssocMap String Nat)
    (hres : AssocMap.find? c.results pid = some r)
    (hvotes : AssocMap.find? c.votes pid = some pv) :
    r.total_votes = AssocMap.sumValues r.counts ∧ r.total_votes = pv.length := by
  obtain ⟨-, -, -, -, htl⟩ := hr.registryInv
  exact htl pid r pv hres hvotes

/-- Witness for C1 at a concrete reachable state with one recorded vote. -/
theorem C1_total_votes_invariant_witness :
    AssocMap.find? demoVoted.results 0 = some rDemo ∧
    AssocMap.find? demoVoted.votes 0 = some pvDemo ∧
    (rDemo.total_votes = AssocMap.sumValues rDemo.counts ∧
      rDemo.total_votes = pvDemo.length) :=
  ⟨by decide, by decide,
    C1_total_votes_invariant demoVoted_reachable 0 rDemo pvDemo
      (by decide) (by decide)⟩

/-- C9: `process_expired_polls` cannot fail (it is a total function on
states); it sets `active := false` on exactly the polls with
`active = true ∧ now > end_time`, changes no other field of any poll, and
leaves the ballot maps, tallies, counter and owner untouched. -/
theorem C9_process_expired_frame (c : VotingContract) (t : Nat) :
    (∀ pid, AssocMap.find? (c.process_expired_polls t).polls pid =
      (AssocMap.find? c.polls pid).map (fun poll =>
        if poll.active ∧ t > poll.end_time then { poll with active := false }
        else poll)) ∧
    (c.process_expired_polls t).votes = c.votes ∧
    (c.process_expired_polls t).results = c.results ∧
    (c.process_expired_polls t).poll_counter = c.poll_counter ∧
    (c.process_expired_polls t).owner = c.owner := by
  refine ⟨?_, rfl, rfl, rfl, rfl⟩
  intro pid
  rw [VotingContract.process_expired_find?]
  cases AssocMap.find? c.polls pid <;> rfl

/-- C10: on every reachable state the three maps share one key set, the tally
keys are exactly the valid option indices, and neither `vote` nor
`get_detailed_results` can panic. -/
theorem C10_reachable_state_safety (owner : String) (c : VotingContract)
    (hr : Reachable owner c) :
    (∀ pid, (AssocMap.find? c.votes pid).isSome =
      (AssocMap.find? c.polls pid).isSome) ∧
    (∀ pid, (AssocMap.find? c.results pid).isSome =
      (AssocMap.find? c.polls pid).isSome) ∧
    (∀ pid poll r, AssocMap.find? c.polls pid = some poll →
      AssocMap.find? c.results pid = some r →
      ∀ i, (AssocMap.find? r.counts i).isSome = true ↔
        i < poll.options.length) ∧
    (∀ pid w oi t, (c.vote pid w oi t).isSome = true) ∧
    (∀ pid, (c.get_detailed_results pid).isSome = true) := by
  obtain ⟨hkv, hkr, hlt, hck, htl⟩ := hr.registryInv
  exact ⟨hkv, hkr, hck,
    fun pid w oi t =>
      VotingContract.vote_isSome c ⟨hkv, hkr, hlt, hck, htl⟩ pid w oi t,
    fun pid =>
      VotingContract.get_detailed_results_isSome c ⟨hkv, hkr, hlt, hck, htl⟩ pid⟩

/-- Witness for C10 at a concrete reachable state. -/
theorem C10_reachable_state_safety_witness :
    (demoVoted.vote 0 "bob" 1 5).isSome = true ∧
    (demoVoted.get_detailed_results 0).isSome = true :=
  ⟨(C10_reachable_state_safety "om" demoVoted demoVoted_reachable).2.2.2.1
      0 "bob" 1 5,
    (C10_reachable_state_safety "om" demoVoted demoVoted_reachable).2.2.2.2 0⟩

/-- C2: a non-panicking `vote` that returns an error leaves the registry
exactly as it was; a successful `vote` changes exactly one thing in each of
the two per-poll structures: it adds the single ballot `voter → option`, it
increments that option's tally count by 1 and `total_votes` by 1, and it
touches no other poll, no other voter, no other option, and no other field
of the registry. -/
theorem C2_vote_atomic (c : VotingContract) (pid : Nat) (w : String)
    (oi t : Nat) (res : Except ContractError Unit) (c' : VotingContract)
    (h : c.vote pid w oi t = some (res, c')) :
    ((∃ e, res = Except.error e) → c' = c) ∧
    (res = Except.ok () →
      c'.polls = c.polls ∧ c'.poll_counter = c.poll_counter ∧
      c'.owner = c.owner ∧
      (∃ pv, AssocMap.find? c.votes pid = some pv ∧
        AssocMap.find? pv w = none ∧
        AssocMap.find? c'.votes pid = some (AssocMap.insert pv w oi) ∧
        (AssocMap.insert pv w oi).length = pv.length + 1 ∧
        AssocMap.find? (AssocMap.insert pv w oi) w = some oi ∧
        (∀ w', w' ≠ w → AssocMap.find? (AssocMap.insert pv w oi) w' =
          AssocMap.find? pv w') ∧
        (∀ pid', pid' ≠ pid → AssocMap.find? c'.votes pid' =
          AssocMap.find? c.votes pid')) ∧
      (∃ r cnt r', AssocMap.find? c.results pid = some r ∧
        AssocMap.find? r.counts oi = some cnt ∧
        AssocMap.find? c'.results pid = some r' ∧
        r'.total_votes = r.total_votes + 1 ∧
        AssocMap.find? r'.counts oi = some (cnt + 1) ∧
        (∀ i, i ≠ oi → AssocMap.find? r'.counts i =
          AssocMap.find? r.counts i) ∧
        (∀ pid', pid' ≠ pid → AssocMap.find? c'.results pid' =
          AssocMap.find? c.results pid'))) := by
  rcases VotingContract.vote_spec c pid w oi t res c' h with
    ⟨heq, e, hres⟩ | ⟨hres, poll, pv, r, cnt, hp, hact, hs, he, hoi, hpv, hpvw,
      hr, hcnt, heq⟩
  · subst hres
    refine ⟨fun _ => heq, fun hok => ?_⟩
    cases hok
  · subst hres
    refine ⟨fun hex => ?_, fun _ => ?_⟩
    · rcases hex with ⟨e, habs⟩
      cases habs
    subst heq
    refine ⟨rfl, rfl, rfl, ⟨pv, hpv, hpvw, ?_, ?_, ?_, ?_, ?_⟩,
      ⟨r, cnt,
        VoteResults.mk (AssocMap.modify r.counts oi (fun n => n + 1))
          (r.total_votes + 1),
        hr, hcnt, ?_, rfl, ?_, ?_, ?_⟩⟩
    · show AssocMap.find? (AssocMap.modify c.votes pid _) pid = _
      rw [AssocMap.find?_modify_self, hpv]
      rfl
    · exact AssocMap.length_insert_of_absent pv w oi hpvw
    · exact AssocMap.find?_insert_self pv w oi
    · intro w' hw'
      exact AssocMap.find?_insert_ne pv w w' oi hw'
    · intro pid' hpid'
      show AssocMap.find? (AssocMap.modify c.votes pid _) pid' = _
      exact AssocMap.find?_modify_ne c.votes pid pid' _ hpid'
    · show AssocMap.find? (AssocMap.modify c.results pid _) pid = _
      rw [AssocMap.find?_modify_self, hr]
      rfl
    · show AssocMap.find? (AssocMap.modify r.counts oi _) oi = _
      rw [AssocMap.find?_modify_self, hcnt]
      rfl
    · intro i hi
      show AssocMap.find? (AssocMap.modify r.counts oi _) i = _
      exact AssocMap.find?_modify_ne r.counts oi i _ hi
    · intro pid' hpid'
      show AssocMap.find? (AssocMap.modify c.results pid _) pid' = _
      exact AssocMap.find?_modify_ne c.results pid pid' _ hpid'

/-- Witness for C2: the successful vote of `"bob"` in `demoReg`. -/
theorem C2_vote_atomic_witness :
    ((∃ e, (Except.ok () : Except ContractError Unit) = Except.error e) →
      demoVoted = demoReg) ∧
    ((Except.ok () : Except ContractError Unit) = Except.ok () →
      demoVoted.polls = demoReg.polls ∧
      demoVoted.poll_counter = demoReg.poll_counter ∧
      demoVoted.owner = demoReg.owner ∧
      (∃ pv, AssocMap.find? demoReg.votes 0 = some pv ∧
        AssocMap.find? pv "bob" = none ∧
        AssocMap.find? demoVoted.votes 0 = some (AssocMap.insert pv "bob" 0) ∧
        (AssocMap.insert pv "bob" 0).length = pv.length + 1 ∧
        AssocMap.find? (AssocMap.insert pv "bob" 0) "bob" = some 0 ∧
        (∀ w', w' ≠ "bob" → AssocMap.find? (AssocMap.insert pv "bob" 0) w' =
          AssocMap.find? pv w') ∧
        (∀ pid', pid' ≠ 0 → AssocMap.find? demoVoted.votes pid' =
          AssocMap.find? demoReg.votes pid')) ∧
      (∃ r cnt r', AssocMap.find? demoReg.results 0 = some r ∧
        AssocMap.find? r.counts 0 = some cnt ∧
        AssocMap.find? demoVoted.results 0 = some r' ∧
        r'.total_votes = r.total_votes + 1 ∧
        AssocMap.find? r'.counts 0 = some (cnt + 1) ∧
        (∀ i, i ≠ 0 → AssocMap.find? r'.counts i =
          AssocMap.find? r.counts i) ∧
        (∀ pid', pid' ≠ 0 → AssocMap.find? demoVoted.results pid' =
          AssocMap.find? demoReg.results pid'))) :=
  C2_vote_atomic demoReg 0 "bob" 0 5 (Except.ok ()) demoVoted (by decide)

/-- C5 counterexample: with fewer than two options *and* a bad time range,
`create_poll` returns `InvalidOption`, not `InvalidTimeRange` — the option
check runs first, so the claimed "regardless of the option count" fails. -/
theorem C5_counterexample :
    (VotingContract.new "om").create_poll "alice" "T" "D" ["only"] 5 3 =
      (Except.error ContractError.InvalidOption, VotingContract.new "om") ∧
    ContractError.InvalidOption ≠ ContractError.InvalidTimeRange :=
  ⟨by decide, by decide⟩

/-- C5 (amended): with at least two options, `create_poll` fails with
`InvalidTimeRange` whenever `start_time ≥ end_time`; and any failed
`create_poll` leaves the registry unchanged. -/
theorem C5_invalid_time_range (c : VotingContract)
    (creator title description : String) (options : List String) (s e : Nat) :
    (2 ≤ options.length → e ≤ s →
      c.create_poll creator title description options s e =
        (Except.error ContractError.InvalidTimeRange, c)) ∧
    (∀ err, (c.create_poll creator title description options s e).1 =
        Except.error err →
      (c.create_poll creator title description options s e).2 = c) := by
  constructor
  · intro h2 hse
    have h1 : ¬ options.length < 2 := by omega
    have h3 : s ≥ e := hse
    simp [VotingContract.create_poll, h1, h3]
  · intro err herr
    rcases VotingContract.create_poll_snd c creator title description
      options s e with ⟨heq, -⟩ | ⟨-, -, heq⟩
    · exact heq
    · rw [heq] at herr
      cases herr

/-- Witness for C5 (amended) at a concrete registry and inputs. -/
theorem C5_invalid_time_range_witness :
    (VotingContract.new "om").create_poll "alice" "T" "D" ["Red", "Blue"] 5 3 =
      (Except.error ContractError.InvalidTimeRange, VotingContract.new "om") :=
  (C5_invalid_time_range (VotingContract.new "om") "alice" "T" "D"
    ["Red", "Blue"] 5 3).1 (by decide) (by decide)

/-- C4 counterexample: in `demoPending` the poll exists and `option_index 5`
is out of bounds (only 2 options), yet `vote` at time 5 — before
`start_time = 10` — fails with `PollNotActive`, not `InvalidOption`: the
claimed unconditional "iff" fails because the active/time checks run first. -/
theorem C4_counterexample :
    AssocMap.find? demoPending.polls 0 = some demoPendingPoll ∧
    demoPendingPoll.options.length ≤ 5 ∧
    demoPending.vote 0 "bob" 5 5 =
      some (Except.error ContractError.PollNotActive, demoPending) ∧
    ContractError.PollNotActive ≠ ContractError.InvalidOption :=
  ⟨by decide, by decide, by decide, by decide⟩

/-- C4 (amended): `vote` returns `InvalidOption` only if
`option_index ≥ options.len()` — unconditionally for any existing poll, in
particular also when the poll is inactive or the time is outside the voting
window; and for an existing poll that is active with
`start_time ≤ now ≤ end_time`, it fails with `InvalidOption` *iff*
`option_index ≥ options.len()`. -/
theorem C4_invalid_option_iff (c : VotingContract) (pid : Nat) (w : String)
    (oi t : Nat) (poll : Poll)
    (hp : AssocMap.find? c.polls pid = some poll) :
    ((c.vote pid w oi t).map Prod.fst =
        some (Except.error ContractError.InvalidOption) →
      poll.options.length ≤ oi) ∧
    (poll.active = true → poll.start_time ≤ t → t ≤ poll.end_time →
      ((c.vote pid w oi t).map Prod.fst =
          some (Except.error ContractError.InvalidOption) ↔
        poll.options.length ≤ oi)) := by
  have honlyif : (c.vote pid w oi t).map Prod.fst =
      some (Except.error ContractError.InvalidOption) →
      poll.options.length ≤ oi := by
    by_cases hlen : poll.options.length ≤ oi
    · exact fun _ => hlen
    · -- with a valid index the InvalidOption branch is unreachable: every
      -- other branch returns a different error, succeeds, or panics
      unfold VotingContract.vote
      rw [hp]
      dsimp only
      by_cases h1 : (!poll.active) = true
      · rw [if_pos h1]
        intro hres
        injection hres with ha
        injection ha with hb
        cases hb
      · rw [if_neg h1]
        by_cases h2 : t < poll.start_time
        · rw [if_pos h2]
          intro hres
          injection hres with ha
          injection ha with hb
          cases hb
        · rw [if_neg h2]
          by_cases h3 : t > poll.end_time
          · rw [if_pos h3]
            intro hres
            injection hres with ha
            injection ha with hb
            cases hb
          · rw [if_neg h3,
              if_neg (show ¬ oi ≥ poll.options.length by omega)]
            cases hpv : AssocMap.find? c.votes pid with
            | none =>
              intro hres
              exact Option.noConfusion hres
            | some pv =>
              dsimp only
              by_cases h5 : AssocMap.contains pv w = true
              · rw [if_pos h5]
                intro hres
                injection hres with ha
                injection ha with hb
                cases hb
              · rw [if_neg h5]
                cases hr : AssocMap.find? c.results pid with
                | none =>
                  intro hres
                  exact Option.noConfusion hres
                | some r =>
                  dsimp only
                  cases hcnt : AssocMap.find? r.counts oi with
                  | none =>
                    intro hres
                    exact Option.noConfusion hres
                  | some cnt =>
                    intro hres
                    injection hres with ha
                    injection ha
  refine ⟨honlyif, fun hact hs he => ⟨honlyif, fun hlen => ?_⟩⟩
  have hv : c.vote pid w oi t =
      some (Except.error ContractError.InvalidOption, c) := by
    unfold VotingContract.vote
    rw [hp]
    dsimp only
    rw [if_neg (by simp [hact]), if_neg (by omega), if_neg (by omega),
      if_pos (by omega)]
  rw [hv]
  rfl

/-- Witness for C4 (amended): the unconditional only-if at the pending
(not-yet-open) poll, and the full iff at a concrete active poll. -/
theorem C4_invalid_option_iff_witness :
    ((demoPending.vote 0 "bob" 5 5).map Prod.fst =
        some (Except.error ContractError.InvalidOption) →
      demoPendingPoll.options.length ≤ 5) ∧
    ((demoReg.vote 0 "bob" 5 5).map Prod.fst =
        some (Except.error ContractError.InvalidOption) ↔
      demoRegPoll.options.length ≤ 5) :=
  ⟨(C4_invalid_option_iff demoPending 0 "bob" 5 5 demoPendingPoll (by decide)).1,
    (C4_invalid_option_iff demoReg 0 "bob" 5 5 demoRegPoll (by decide)).2
      (by decide) (by decide) (by decide)⟩

theorem AssocMap.modify_eq_of_fixed {α β : Type} [DecidableEq α]
    (m : AssocMap α β) (a : α) (f : β → β)
    (h : ∀ v, AssocMap.find? m a = some v → f v = v) :
    AssocMap.modify m a f = m := by
  induction m with
  | nil => rfl
  | cons kv rest ih =>
    obtain ⟨k, v⟩ := kv
    by_cases hk : k = a
    · have hv : f v = v := by
        apply h
        simp [AssocMap.find?, hk]
      simp [AssocMap.modify, hk, hv]
    · have hrest : ∀ v', AssocMap.find? rest a = some v' → f v' = v' := by
        intro v' hv'
        apply h
        simpa [AssocMap.find?, hk] using hv'
      simp [AssocMap.modify, hk, ih hrest]

theorem Poll.set_inactive_eq (p : Poll) (h : p.active = false) :
    { p with active := false } = p := by
  cases p
  simp only [Poll.mk.injEq, and_true, true_and]
  simp at h
  rw [h]

/-- C6: for an existing poll, `close_poll` succeeds iff the caller is the
poll's creator or the registry owner; on success it clears exactly that
poll's `active` flag and changes nothing else; an unauthorized caller gets
`Unauthorized` with the registry untouched; and closing an already-closed
poll (by an authorized caller) succeeds and is a no-op on the state. -/
theorem C6_close_poll_auth (c : VotingContract) (pid : Nat) (caller : String)
    (poll : Poll) (hp : AssocMap.find? c.polls pid = some poll) :
    ((poll.creator = caller ∨ c.owner = caller) →
      c.close_poll pid caller = (Except.ok (),
        { c with polls :=
                   AssocMap.modify c.polls pid
                     (fun p => { p with active := false }) }) ∧
      AssocMap.find? (c.close_poll pid caller).2.polls pid =
        some { poll with active := false } ∧
      (∀ pid', pid' ≠ pid → AssocMap.find? (c.close_poll pid caller).2.polls pid' =
        AssocMap.find? c.polls pid') ∧
      (c.close_poll pid caller).2.votes = c.votes ∧
      (c.close_poll pid caller).2.results = c.results ∧
      (c.close_poll pid caller).2.poll_counter = c.poll_counter ∧
      (c.close_poll pid caller).2.owner = c.owner ∧
      (poll.active = false → (c.close_poll pid caller).2 = c)) ∧
    (¬(poll.creator = caller ∨ c.owner = caller) →
      c.close_poll pid caller = (Except.error ContractError.Unauthorized, c)) := by
  have hclose : ∀ hauth : poll.creator = caller ∨ c.owner = caller,
      c.close_poll pid caller = (Except.ok (),
        { c with polls :=
                   AssocMap.modify c.polls pid
                     (fun p => { p with active := false }) }) := by
    intro hauth
    unfold VotingContract.close_poll
    rw [hp]
    dsimp only
    rw [if_neg ?hcond]
    case hcond =>
      rcases hauth with h1 | h2
      · exact fun ⟨hc, _⟩ => hc h1
      · exact fun ⟨_, ho⟩ => ho h2
  constructor
  · intro hauth
    have heq := hclose hauth
    refine ⟨heq, ?_, ?_, ?_, ?_, ?_, ?_, ?_⟩
    · rw [heq]
      dsimp only
      rw [AssocMap.find?_modify_self, hp]
      rfl
    · intro pid' hpid'
      rw [heq]
      dsimp only
      exact AssocMap.find?_modify_ne c.polls pid pid' _ hpid'
    · rw [heq]
    · rw [heq]
    · rw [heq]
    · rw [heq]
    · intro hinactive
      rw [heq]
      dsimp only
      have hfix : AssocMap.modify c.polls pid
          (fun p => { p with active := false }) = c.polls := by
        apply AssocMap.modify_eq_of_fixed
        intro v hv
        rw [hp] at hv
        injection hv with hv'
        subst hv'
        exact Poll.set_inactive_eq poll hinactive
      rw [hfix]
  · intro hnauth
    unfold VotingContract.close_poll
    rw [hp]
    dsimp only
    rw [if_pos ⟨fun hc => hnauth (Or.inl hc), fun ho => hnauth (Or.inr ho)⟩]

/-- Witness for C6: the creator closes the demo poll; then closing the
already-closed poll again is a no-op. -/
theorem C6_close_poll_auth_witness :
    demoVoted.close_poll 0 "alice" = (Except.ok (),
      { demoVoted with polls :=
                         AssocMap.modify demoVoted.polls 0
                           (fun p => { p with active := false }) }) ∧
    (demoClosed.close_poll 0 "alice").2 = demoClosed :=
  ⟨((C6_close_poll_auth demoVoted 0 "alice" demoRegPoll (by decide)).1
      (Or.inl (by decide))).1,
    ((C6_close_poll_auth demoClosed 0 "alice" demoClosedPoll (by decide)).1
      (Or.inl (by decide))).2.2.2.2.2.2.2 (by decide)⟩

/-- C7: closed is terminal — over any sequence of public operations from a
reachable state, a poll present in the registry stays present (no operation
deletes a poll), and once its `active` flag is `false` it stays `false`. -/
theorem C7_closed_terminal (owner : String) (c c' : VotingContract)
    (hr : Reachable owner c) (hs : Steps c c') (pid : Nat) (poll : Poll)
    (hp : AssocMap.find? c.polls pid = some poll) :
    ∃ poll', AssocMap.find? c'.polls pid = some poll' ∧
      (poll.active = false → poll'.active = false) :=
  (steps_preserves c c' hr hs).1 pid poll hp

/-- Witness for C7: the closed demo poll stays closed across an expiry
sweep. -/
theorem C7_closed_terminal_witness :
    ∃ poll', AssocMap.find? (demoClosed.process_expired_polls 30).polls 0 =
      some poll' ∧ (demoClosedPoll.active = false → poll'.active = false) :=
  C7_closed_terminal "om" demoClosed (demoClosed.process_expired_polls 30)
    demoClosed_reachable
    (Steps.tail (Op.processExpired 30) demoClosed demoClosed
      (demoClosed.process_expired_polls 30) (Steps.refl demoClosed) rfl)
    0 demoClosedPoll (by decide)

/-- C8: the counter of a fresh registry is 0; with ≥ 2 options and
`start < end`, `create_poll` succeeds returning the current counter value and
increments the counter; on reachable states the returned id is fresh (held by
no existing poll); and no operation ever decreases the counter — so the ids
of successive successful `create_poll` calls are strictly increasing from
0. -/
theorem C8_create_poll_ids (owner : String) (c : VotingContract)
    (creator title description : String) (options : List String) (s e : Nat) :
    (VotingContract.new owner).poll_counter = 0 ∧
    (2 ≤ options.length → s < e →
      (c.create_poll creator title description options s e).1 =
        Except.ok c.poll_counter ∧
      (c.create_poll creator title description options s e).2.poll_counter =
        c.poll_counter + 1) ∧
    (Reachable owner c → AssocMap.find? c.polls c.poll_counter = none) ∧
    (∀ (op : Op) (c' : VotingContract), applyOp c op = some c' →
      c.poll_counter ≤ c'.poll_counter) := by
  refine ⟨rfl, ?_, ?_, ?_⟩
  · intro h2 hse
    rw [VotingContract.create_poll_ok c creator title description options s e
      h2 hse]
    exact ⟨rfl, rfl⟩
  · intro hr
    obtain ⟨-, -, hlt, -, -⟩ := hr.registryInv
    cases hfind : AssocMap.find? c.polls c.poll_counter with
    | none => rfl
    | some p =>
      have := hlt c.poll_counter p hfind
      omega
  · intro op c' happ
    cases op with
    | create cr ti de opts s0 e0 =>
      cases happ
      rcases VotingContract.create_poll_snd c cr ti de opts s0 e0 with
        ⟨heq, -⟩ | ⟨-, -, heq⟩
      · rw [heq]
      · rw [heq]
        dsimp only
        omega
    | castVote pid w oi t0 =>
      simp only [applyOp] at happ
      obtain ⟨⟨res, c₂⟩, hv, hsnd⟩ := option_map_some_inv _ _ _ happ
      cases hsnd
      rcases VotingContract.vote_spec c pid w oi t0 res c₂ hv with
        ⟨heq, -⟩ | ⟨-, p, pv, r, cnt, -, -, -, -, -, -, -, -, -, heq⟩
      · rw [heq]
      · subst heq
        exact le_refl _
    | close pid caller =>
      cases happ
      rcases VotingContract.close_poll_spec c pid caller
        (c.close_poll pid caller).1 (c.close_poll pid caller).2 rfl with
        ⟨heq, -⟩ | ⟨-, p, hp0, -, heq⟩
      · rw [heq]
      · rw [heq]
    | processExpired t0 =>
      cases happ
      exact le_refl _

/-- Witness for C8: a second create on the demo registry returns id 1 and the
current counter value is fresh. -/
theorem C8_create_poll_ids_witness :
    ((demoReg.create_poll "dave" "T2" "D2" ["A", "B"] 3 9).1 =
      Except.ok demoReg.poll_counter ∧
     (demoReg.create_poll "dave" "T2" "D2" ["A", "B"] 3 9).2.poll_counter =
      demoReg.poll_counter + 1) ∧
    AssocMap.find? demoReg.polls demoReg.poll_counter = none :=
  ⟨(C8_create_poll_ids "om" demoReg "dave" "T2" "D2" ["A", "B"] 3 9).2.1
      (by decide) (by decide),
    (C8_create_poll_ids "om" demoReg "dave" "T2" "D2" ["A", "B"] 3 9).2.2.1
      demoReg_reachable⟩

/-- C3 counterexample: `"bob"` votes successfully, the creator closes the
poll, and `"bob"`'s second attempt fails with `PollNotActive` — not
`AlreadyVoted` — because the already-voted check is the *last* of the five
checks in `vote`. -/
theorem C3_counterexample :
    demoReg.vote 0 "bob" 0 5 = some (Except.ok (), demoVoted) ∧
    demoVoted.close_poll 0 "alice" = (Except.ok (), demoClosed) ∧
    demoClosed.vote 0 "bob" 0 5 =
      some (Except.error ContractError.PollNotActive, demoClosed) ∧
    ContractError.PollNotActive ≠ ContractError.AlreadyVoted :=
  ⟨by decide, by decide, by decide, by decide⟩

/-- A vote by a voter whose ballot is already recorded always fails and
leaves the state unchanged; the error is `AlreadyVoted` exactly when the poll
is still active, the time is inside the voting window and the option index is
valid (otherwise one of the earlier checks reports its own error first). -/
theorem vote_already_recorded (c : VotingContract) (pid : Nat) (w : String)
    (oi' t' oi0 : Nat) (pv : AssocMap String Nat)
    (hpolls : ∃ poll, AssocMap.find? c.polls pid = some poll)
    (hpv : AssocMap.find? c.votes pid = some pv)
    (hw : AssocMap.find? pv w = some oi0) :
    (∃ e, c.vote pid w oi' t' = some (Except.error e, c)) ∧
    (∀ poll', AssocMap.find? c.polls pid = some poll' →
      poll'.active = true → poll'.start_time ≤ t' → t' ≤ poll'.end_time →
      oi' < poll'.options.length →
      c.vote pid w oi' t' =
        some (Except.error ContractError.AlreadyVoted, c)) := by
  obtain ⟨poll, hp⟩ := hpolls
  constructor
  · unfold VotingContract.vote
    rw [hp]
    dsimp only
    split
    · exact ⟨_, rfl⟩
    · split
      · exact ⟨_, rfl⟩
      · split
        · exact ⟨_, rfl⟩
        · split
          · exact ⟨_, rfl⟩
          · rw [hpv]
            dsimp only
            rw [if_pos (show AssocMap.contains pv w = true by
              simp [AssocMap.contains, hw])]
            exact ⟨_, rfl⟩
  · intro poll' hp' hact hs' he' hoi'
    unfold VotingContract.vote
    rw [hp']
    dsimp only
    rw [if_neg (by simp [hact]), if_neg (by omega), if_neg (by omega),
      if_neg (by omega), hpv]
    dsimp only
    rw [if_pos (show AssocMap.contains pv w = true by
      simp [AssocMap.contains, hw])]

/-- C3 (amended): at most one `vote` per `(poll_id, voter)` pair ever
succeeds: once a vote by `w` in poll `pid` has succeeded, every later attempt
by `w` in `pid` fails and leaves the registry (hence `total_votes`)
unchanged; the error is `AlreadyVoted` whenever the poll is still active and
the attempt is inside the voting window with a valid option index, while an
attempt on a closed/expired poll reports that earlier error instead. -/
theorem C3_vote_at_most_once {owner : String} (c c₁ c₂ : VotingContract)
    (pid : Nat) (w : String) (oi t : Nat)
    (hr : Reachable owner c)
    (hvote : c.vote pid w oi t = some (Except.ok (), c₁))
    (hsteps : Steps c₁ c₂) (oi' t' : Nat) :
    (∃ e, c₂.vote pid w oi' t' = some (Except.error e, c₂)) ∧
    (∀ poll', AssocMap.find? c₂.polls pid = some poll' →
      poll'.active = true → poll'.start_time ≤ t' → t' ≤ poll'.end_time →
      oi' < poll'.options.length →
      c₂.vote pid w oi' t' =
        some (Except.error ContractError.AlreadyVoted, c₂)) := by
  have hr₁ : Reachable owner c₁ :=
    Reachable.step (Op.castVote pid w oi t) c c₁ hr (by simp [applyOp, hvote])
  rcases VotingContract.vote_spec c pid w oi t _ c₁ hvote with
    ⟨-, e, habs⟩ | ⟨-, poll, pv, r, cnt, hp, -, -, -, -, hpv, hpvw, -, -, heq⟩
  · cases habs
  · have hpv₁ : AssocMap.find? c₁.votes pid =
        some (AssocMap.insert pv w oi) := by
      subst heq
      show AssocMap.find? (AssocMap.modify c.votes pid _) pid = _
      rw [AssocMap.find?_modify_self, hpv]
      rfl
    have hw₁ : AssocMap.find? (AssocMap.insert pv w oi) w = some oi :=
      AssocMap.find?_insert_self pv w oi
    obtain ⟨-, -, hballots⟩ := steps_preserves c₁ c₂ hr₁ hsteps
    obtain ⟨pv₂, hpv₂, hw₂⟩ := hballots pid _ w oi hpv₁ hw₁
    have hr₂ : Reachable owner c₂ := Steps.reachable hr₁ hsteps
    obtain ⟨hkv, -, -, -, -⟩ := hr₂.registryInv
    have hpolls₂ : ∃ poll₂, AssocMap.find? c₂.polls pid = some poll₂ := by
      have h1 := (hkv pid).symm
      rw [hpv₂] at h1
      simp only [Option.isSome_some] at h1
      exact Option.isSome_iff_exists.mp h1
    exact vote_already_recorded c₂ pid w oi' t' oi pv₂ hpolls₂ hpv₂ hw₂

/-- Witness for C3 (amended): after the demo poll is closed, `"bob"`'s second
attempt fails (here with `PollNotActive`) and the state is unchanged. -/
theorem C3_vote_at_most_once_witness :
    ∃ e, demoClosed.vote 0 "bob" 0 5 = some (Except.error e, demoClosed) :=
  (C3_vote_at_most_once demoReg demoVoted demoClosed 0 "bob" 0 5
    demoReg_reachable (by decide) demoVoted_steps_demoClosed 0 5).1
